import Mathlib

set_option autoImplicit false

/-!
Verification of the implements-clause manipulation mixin
(`src/compiler/base/ImplementsClauseableNode.ts`) and of the get-accessor
structure printer
(`src/structurePrinters/class/GetAccessorDeclarationStructurePrinter.ts`).

The manipulation layer (`verifyAndGetIndex`, `insertIntoCommaSeparatedNodes`,
`insertIntoCreatableSyntaxList`, `removeChildren`, `removeCommaSeparatedChild`,
`getNodeOrNodesToReturn`) and the `CodeBlockWriter` class belong to the
repository but are not part of the excerpt; they are modelled from the
specification, each with a doc comment saying so.  Throwing an exception is
modelled with `Except`: an `error` result carries no updated state, which
matches the code throwing before any edit is made.
-/

deriving instance DecidableEq for Except

namespace TsMorph

/-- Characters matched by the JavaScript regular expression class used on
line 89 of `ImplementsClauseableNode.ts` to test the character before the
open brace (the ASCII whitespace characters). -/
def jsWhitespaceChar (c : Char) : Bool :=
  c = ' ' || c = '\t' || c = '\n' || c = '\r' || c = '\x0b' || c = '\x0c'

/-- A string that is empty or consists only of whitespace characters. -/
def isWhitespaceString (s : String) : Bool :=
  s.data.all jsWhitespaceChar

/-- A heritage clause of a class-like node: an `extends` or `implements`
keyword followed by the comma-separated type texts. -/
structure HeritageClause where
  isImplements : Bool
  typeTexts : List String
deriving DecidableEq

/-- Source text of one heritage clause. -/
def HeritageClause.render (c : HeritageClause) : String :=
  (if c.isImplements then "implements " else "extends ") ++
    String.intercalate (", ") c.typeTexts

/-- Source text of the heritage clause syntax list. -/
def renderClauses (cs : List HeritageClause) : String :=
  String.intercalate (" ") (cs.map HeritageClause.render)

/-- The source-text model of a class-like node: the text before the heritage
clause syntax list, the heritage clauses, the whitespace between them and the
open brace, and the text after the open brace. -/
structure ClassNode where
  header : String
  clauses : List HeritageClause
  gap : String
  body : String
deriving DecidableEq

/-- Full source text of the node, as `getSourceFile().getFullText()` sees it. -/
def ClassNode.fullText (n : ClassNode) : String :=
  n.header ++ renderClauses n.clauses ++ n.gap ++ "\x7b" ++ n.body

/-- Position of the open brace token, as `getFirstChildByKindOrThrow(OpenBraceToken).getStart()` returns it. -/
def ClassNode.openBracePos (n : ClassNode) : Nat :=
  (n.header ++ renderClauses n.clauses ++ n.gap).length

/-- Character of the source text at an index (`fullText[i]` in the code). -/
def charAt (s : String) (i : Nat) : Option Char :=
  s.data.get? i

/-- Line 89 of `ImplementsClauseableNode.ts`: whether the character just
before the open brace is whitespace.  When the brace is at position 0 the
JavaScript index expression is `undefined` and the regular expression does
not match, so the result is `false`. -/
def ClassNode.isLastSpaceBeforeBrace (n : ClassNode) : Bool :=
  if n.openBracePos = 0 then false
  else
    match charAt n.fullText (n.openBracePos - 1) with
    | some c => jsWhitespaceChar c
    | none => false

/-- `getImplementsHeritageClause` (lines 143-145): the first heritage clause
whose token is the implements keyword. -/
def getImplementsHeritageClause (heritageClauses : List HeritageClause) :
    Option HeritageClause :=
  heritageClauses.find? (fun c => c.isImplements)

/-- The implements type texts of a heritage clause list (`getImplements`,
lines 55-58). -/
def implementsOf (heritageClauses : List HeritageClause) : List String :=
  match getImplementsHeritageClause heritageClauses with
  | none => []
  | some c => c.typeTexts

/-- `getImplements` of the node (lines 55-58). -/
def ClassNode.getImplements (n : ClassNode) : List String :=
  implementsOf n.clauses

/-- The exceptions the excerpt can throw. -/
inductive ManipError where
  | argumentNullOrWhitespace
  | indexOutOfRange
  | invalidOperation (message : String)
deriving DecidableEq

/-- Which manipulation-layer call `insertImplements` performed. -/
inductive InsertCall where
  | noEdit
  | commaSeparated (insertIndex : Nat) (newTexts : List String)
  | creatableSyntaxList (insertPos : Nat) (newText : String)
      (hasSyntaxList : Bool) (childIndex : Nat) (insertItemsCount : Nat)
deriving DecidableEq

/-- The value `insertImplements` returns: a single node for the string
overload, the node array for the array overload. -/
inductive InsertReturn where
  | one (t : Option String)
  | many (ts : List String)
deriving DecidableEq

/-- Modelled from the spec: `verifyAndGetIndex` (index validation, from the
manipulation layer, not in the excerpt) accepts the indexes 0 through the
given length inclusive and throws otherwise. -/
def verifyAndGetIndex (index : Int) (length : Nat) : Except ManipError Nat :=
  if 0 ≤ index ∧ index ≤ (length : Int) then .ok index.toNat
  else .error .indexOutOfRange

/-- Splice new texts into the type list of the first implements clause. -/
def spliceIntoImplementsClause (cs : List HeritageClause) (insertIndex : Nat)
    (newTexts : List String) : List HeritageClause :=
  match cs with
  | [] => []
  | c :: rest =>
    if c.isImplements then
      { c with typeTexts :=
          c.typeTexts.take insertIndex ++ newTexts ++ c.typeTexts.drop insertIndex } :: rest
    else c :: spliceIntoImplementsClause rest insertIndex newTexts

/-- Modelled from the spec: `insertIntoCommaSeparatedNodes` (manipulation
layer, not in the excerpt) splices the new texts into the comma-separated
implements list at the given index. -/
def insertIntoCommaSeparatedNodes (n : ClassNode) (insertIndex : Nat)
    (newTexts : List String) : ClassNode :=
  { n with clauses := spliceIntoImplementsClause n.clauses insertIndex newTexts }

/-- Insert text into a string at a character position. -/
def stringInsertAt (s : String) (pos : Nat) (t : String) : String :=
  String.mk (s.data.take pos ++ t.data ++ s.data.drop pos)

/-- Modelled from the spec: `insertIntoCreatableSyntaxList` (manipulation
layer, not in the excerpt) inserts the text at the given position, creating
the heritage syntax list when absent; structurally the inserted
`implements ...` text becomes a new implements heritage clause after the
existing clauses, whose types are the inserted texts. -/
def insertIntoCreatableSyntaxList (n : ClassNode) (insertPos : Nat)
    (newText : String) (newTypes : List String) : String × List HeritageClause :=
  (stringInsertAt n.fullText insertPos newText, n.clauses ++ [⟨true, newTypes⟩])

/-- Modelled from the spec: `getNodeOrNodesToReturn` (manipulation layer, not
in the excerpt) returns the nodes at positions index through
index + length - 1 when the length is positive (the array overload) and the
single node at the index otherwise (the string overload, which passes
length 0). -/
def getNodeOrNodesToReturn (nodes : List String) (index length : Nat) :
    InsertReturn :=
  if 0 < length then .many ((nodes.drop index).take length)
  else .one (nodes.get? index)

/-- The result of a successful `insertImplements`: the new source text, the
new heritage clauses, the manipulation call performed, and the returned
nodes. -/
structure InsertOutcome where
  newFullText : String
  newClauses : List HeritageClause
  call : InsertCall
  returned : InsertReturn
deriving DecidableEq

/-- The edit an insertion performs, without the returned value. -/
def InsertOutcome.edit (o : InsertOutcome) :
    String × List HeritageClause × InsertCall :=
  (o.newFullText, o.newClauses, o.call)

/-- The `texts` argument of `insertImplements`: the string overload or the
array overload. -/
inductive TextsArg where
  | str (s : String)
  | arr (texts : List String)
deriving DecidableEq

/-- Lines 78-104 of `ImplementsClauseableNode.ts`: the shared part of
`insertImplements` after the overloads were normalised to a text list
(`length` is the length the overload dispatch computed on line 69). -/
def insertImplementsCore (n : ClassNode) (index : Int) (texts : List String)
    (length : Nat) : Except ManipError InsertOutcome :=
  let heritageClauses := n.clauses
  let implementsTypes := implementsOf heritageClauses
  match verifyAndGetIndex index implementsTypes.length with
  | .error e => .error e
  | .ok idx =>
    if 0 < implementsTypes.length then
      let n' := insertIntoCommaSeparatedNodes n idx texts
      .ok ⟨n'.fullText, n'.clauses, .commaSeparated idx texts,
        getNodeOrNodesToReturn n'.getImplements idx length⟩
    else
      let openBraceStart := n.openBracePos
      let isLastSpace := n.isLastSpaceBeforeBrace
      let insertText0 := "implements " ++ String.intercalate (", ") texts ++ " "
      let insertText := if isLastSpace then insertText0 else " " ++ insertText0
      let res := insertIntoCreatableSyntaxList n openBraceStart insertText texts
      .ok ⟨res.1, res.2,
        .creatableSyntaxList openBraceStart insertText
          (heritageClauses.length != 0) 1 1,
        getNodeOrNodesToReturn (implementsOf res.2) idx length⟩

/-- `insertImplements` (lines 66-105).  The string overload is checked for
whitespace-only text (modelled from the spec: `throwIfNotStringOrWhitespace`,
not in the excerpt, throws when the string is empty or whitespace-only) and
wrapped in a one-element list; the empty array overload returns immediately
without touching the node. -/
def ClassNode.insertImplements (n : ClassNode) (index : Int) (texts : TextsArg) :
    Except ManipError InsertOutcome :=
  let length : Nat := match texts with | .arr l => l.length | .str _ => 0
  match texts with
  | .str s =>
    if isWhitespaceString s then .error .argumentNullOrWhitespace
    else insertImplementsCore n index [s] length
  | .arr l =>
    if l.length = 0 then .ok ⟨n.fullText, n.clauses, .noEdit, .many []⟩
    else insertImplementsCore n index l length

/-- `addImplements` (lines 60-64): insert at the end of the current
implements list. -/
def ClassNode.addImplements (n : ClassNode) (texts : TextsArg) :
    Except ManipError InsertOutcome :=
  n.insertImplements (n.getImplements.length : Int) texts

/-- Which manipulation-layer call `removeImplements` performed. -/
inductive RemoveCall where
  | childrenSyntaxList (removePrecedingSpaces : Bool)
  | childrenImplementsClause (removePrecedingSpaces : Bool)
  | commaSeparatedChild (targetIndex : Nat) (removePrecedingSpaces : Bool)
deriving DecidableEq

/-- The result of a successful `removeImplements`. -/
structure RemoveOutcome where
  newFullText : String
  newClauses : List HeritageClause
  call : RemoveCall
deriving DecidableEq

/-- The argument of `removeImplements`: a numeric index, or an implements
node identified by its position among `getImplements()`. -/
inductive RemoveArg where
  | index (i : Int)
  | node (k : Nat)
deriving DecidableEq

/-- Remove trailing whitespace characters from a string. -/
def stripTrailingWhitespace (s : String) : String :=
  String.mk ((s.data.reverse.dropWhile jsWhitespaceChar).reverse)

/-- Modelled from the spec: `removeChildren` (manipulation layer, not in the
excerpt) on the whole heritage syntax list with `removePrecedingSpaces`
removes all clauses together with the whitespace before them. -/
def removeHeritageSyntaxList (n : ClassNode) : String :=
  stripTrailingWhitespace n.header ++ n.gap ++ "\x7b" ++ n.body

/-- Remove the first implements clause from a clause list. -/
def eraseFirstImplementsClause : List HeritageClause → List HeritageClause
  | [] => []
  | c :: rest => if c.isImplements then rest else c :: eraseFirstImplementsClause rest

/-- Modelled from the spec: `removeChildren` on the implements heritage
clause with `removePrecedingSpaces` removes that clause and the whitespace
before it, leaving the other clauses in place. -/
def removeImplementsClauseOnly (n : ClassNode) : String × List HeritageClause :=
  let cs := eraseFirstImplementsClause n.clauses
  (({ n with clauses := cs } : ClassNode).fullText, cs)

/-- Erase the type at an index from the first implements clause. -/
def eraseImplementsTypeAt (cs : List HeritageClause) (k : Nat) :
    List HeritageClause :=
  match cs with
  | [] => []
  | c :: rest =>
    if c.isImplements then { c with typeTexts := c.typeTexts.eraseIdx k } :: rest
    else c :: eraseImplementsTypeAt rest k

/-- Modelled from the spec: `removeCommaSeparatedChild` (manipulation layer,
not in the excerpt) removes one child of the comma-separated implements list
together with the adjoining comma (and the preceding spaces when requested). -/
def removeCommaSeparatedChild (n : ClassNode) (k : Nat) :
    String × List HeritageClause :=
  let cs := eraseImplementsTypeAt n.clauses k
  (({ n with clauses := cs } : ClassNode).fullText, cs)

/-- `removeImplements` (lines 107-130).  The reference comparison
`implementsNodeToRemove !== implementsNodes[0]` becomes a comparison of
positions, since distinct list positions hold distinct node objects. -/
def ClassNode.removeImplements (n : ClassNode) (arg : RemoveArg) :
    Except ManipError RemoveOutcome :=
  let implementsNodes := n.getImplements
  if implementsNodes.length = 0 then
    .error (.invalidOperation ("Cannot remove an implements when none exist."))
  else
    match (match arg with
      | .index i => verifyAndGetIndex i (implementsNodes.length - 1)
      | .node k => .ok k) with
    | .error e => .error e
    | .ok k =>
      if implementsNodes.length = 1 then
        if n.clauses.length = 1 then
          .ok ⟨removeHeritageSyntaxList n, [], .childrenSyntaxList true⟩
        else
          let res := removeImplementsClauseOnly n
          .ok ⟨res.1, res.2, .childrenImplementsClause true⟩
      else
        let res := removeCommaSeparatedChild n k
        .ok ⟨res.1, res.2, .commaSeparatedChild k (k != 0)⟩

/-- The part of `GetAccessorDeclarationStructure` the printed shape depends
on directly; the remaining fields (docs, decorators, modifiers, type
parameters, parameters, return type, body text) are consumed only by the
collaborating printers. -/
structure GetAccessorDeclarationStructure where
  name : String
  isAbstract : Bool
deriving DecidableEq

/-- Modelled from the spec: `CodeBlockWriter.write` appends the text to the
writer. -/
def write (w t : String) : String := w ++ t

/-- Modelled from the spec: `CodeBlockWriter.spaceIfLastNot` writes a space
when the last written character is not a space. -/
def spaceIfLastNot (w : String) : String :=
  if w.endsWith (" ") then w else w ++ " "

/-- Modelled from the spec: `CodeBlockWriter.inlineBlock` writes an opening
brace, then whatever the action writes, then the closing brace. -/
def inlineBlock (w : String) (action : String → String) : String :=
  action (w ++ "\x7b") ++ "\x7d"

/-- The external structure printers the get-accessor printer delegates to
(the spec treats them as collaborators with the contract "given a structure,
produce a text fragment"); each is a writer transformer.  The body printer
receives the `isAmbient` option, as `forBodyText(this.options)` passes it. -/
structure StructurePrinterFactory where
  printDocs : GetAccessorDeclarationStructure → String → String
  printDecoratorTexts : GetAccessorDeclarationStructure → String → String
  printModifierText : GetAccessorDeclarationStructure → String → String
  printTypeParameterTextsWithBrackets : GetAccessorDeclarationStructure → String → String
  printParameterTexts : GetAccessorDeclarationStructure → String → String
  printReturnTypedText : GetAccessorDeclarationStructure → String → String
  printBodyText : Bool → GetAccessorDeclarationStructure → String → String

/-- `GetAccessorDeclarationStructurePrinter.printText` (lines 18-35 of
`GetAccessorDeclarationStructurePrinter.ts`); `isAmbient` is the option the
printer was constructed with. -/
def printText (fac : StructurePrinterFactory) (isAmbient : Bool)
    (s : GetAccessorDeclarationStructure) (writer : String) : String :=
  let w1 := fac.printDocs s writer
  let w2 := fac.printDecoratorTexts s w1
  let w3 := fac.printModifierText s w2
  let w4 := write w3 ("get " ++ s.name)
  let w5 := fac.printTypeParameterTextsWithBrackets s w4
  let w6 := write w5 ("(")
  let w7 := fac.printParameterTexts s w6
  let w8 := write w7 (")")
  let w9 := fac.printReturnTypedText s w8
  if isAmbient || s.isAbstract then write w9 (";")
  else inlineBlock (spaceIfLastNot w9) (fac.printBodyText isAmbient s)

/-- The writer state after the header pieces of `printText` (docs through
return type), before the terminator or body block is written. -/
def printTextHeader (fac : StructurePrinterFactory)
    (s : GetAccessorDeclarationStructure) (writer : String) : String :=
  fac.printReturnTypedText s
    (write
      (fac.printParameterTexts s
        (write
          (fac.printTypeParameterTextsWithBrackets s
            (write
              (fac.printModifierText s
                (fac.printDecoratorTexts s (fac.printDocs s writer)))
              ("get " ++ s.name)))
          ("(")))
      (")"))

/-- A node with one implements type, reading `class C implements A \x7b \x7d`. -/
def demoOneImpl : ClassNode := ⟨"class C ", [⟨true, ["A"]⟩], " ", " \x7d"⟩

/-- A node with no heritage clauses, reading `class C \x7b \x7d`. -/
def demoPlain : ClassNode := ⟨"class C ", [], "", " \x7d"⟩

/-- A node with an extends clause and a two-element implements clause,
reading `class C extends B implements A, D \x7b \x7d`. -/
def demoTwoImpl : ClassNode :=
  ⟨"class C ", [⟨false, ["B"]⟩, ⟨true, ["A", "D"]⟩], " ", " \x7d"⟩

theorem insertImplementsCore_out_of_range (n : ClassNode) (i : Int)
    (ts : List String) (len : Nat)
    (h : ¬(0 ≤ i ∧ i ≤ ((implementsOf n.clauses).length : Int))) :
    insertImplementsCore n i ts len = .error .indexOutOfRange := by
  simp only [insertImplementsCore, verifyAndGetIndex, if_neg h]

theorem insertImplementsCore_in_range (n : ClassNode) (i : Int)
    (ts : List String) (len : Nat)
    (h : 0 ≤ i ∧ i ≤ ((implementsOf n.clauses).length : Int)) :
    ∃ out, insertImplementsCore n i ts len = .ok out := by
  simp only [insertImplementsCore, verifyAndGetIndex, if_pos h]
  split <;> exact ⟨_, rfl⟩

theorem insertImplementsCore_ne_whitespace_error (n : ClassNode) (i : Int)
    (ts : List String) (len : Nat) :
    insertImplementsCore n i ts len ≠ .error .argumentNullOrWhitespace := by
  by_cases h : 0 ≤ i ∧ i ≤ ((implementsOf n.clauses).length : Int)
  · obtain ⟨out, ho⟩ := insertImplementsCore_in_range n i ts len h
    simp [ho]
  · simp [insertImplementsCore_out_of_range n i ts len h]

theorem insertImplementsCore_edit_indep (n : ClassNode) (i : Int)
    (ts : List String) (a b : Nat) :
    (insertImplementsCore n i ts a).map InsertOutcome.edit =
      (insertImplementsCore n i ts b).map InsertOutcome.edit := by
  simp only [insertImplementsCore]
  split
  · rfl
  · split <;> rfl

/-- Claim C9: `insertImplements` called with an empty array returns an empty
array and performs no edit at all: the source text, the heritage clauses and
hence the implements list are exactly as before the call. -/
theorem insertImplements_empty_array_is_noop (n : ClassNode) (index : Int) :
    n.insertImplements index (.arr []) =
      .ok ⟨n.fullText, n.clauses, .noEdit, .many []⟩ := rfl

/-- Claim C10: the string overload of `insertImplements` throws a
precondition error when the string is empty or whitespace-only — before any
edit, so no outcome is produced — and a non-whitespace string passes the
check (the call never fails with that error). -/
theorem insertImplements_string_whitespace_check (n : ClassNode) (index : Int)
    (s : String) :
    (isWhitespaceString s = true →
      n.insertImplements index (.str s) = .error .argumentNullOrWhitespace) ∧
    (isWhitespaceString s = false →
      n.insertImplements index (.str s) ≠ .error .argumentNullOrWhitespace) := by
  constructor
  · intro h
    simp [ClassNode.insertImplements, h]
  · intro h
    simp only [ClassNode.insertImplements, h, Bool.false_eq_true, if_false]
    exact insertImplementsCore_ne_whitespace_error n index [s] 0

theorem insertImplements_string_whitespace_check_witness :
    (demoPlain.insertImplements 0 (.str (" ")) =
      .error .argumentNullOrWhitespace) ∧
    (demoPlain.insertImplements 0 (.str ("IFoo")) ≠
      .error .argumentNullOrWhitespace) :=
  ⟨(insertImplements_string_whitespace_check demoPlain 0 (" ")).1 (by decide),
   (insertImplements_string_whitespace_check demoPlain 0 ("IFoo")).2 (by decide)⟩

/-- Claim C3: `addImplements` performs exactly the edit and returns exactly
the result of `insertImplements` at index `getImplements().length`, and for
a non-whitespace string the singular overload of `insertImplements` performs
the same edit (text, clauses and manipulation call) as the plural overload
applied to the one-element array, so all four overloads collapse to one
insertion algorithm. -/
theorem addImplements_collapses_to_insert (n : ClassNode) (texts : TextsArg)
    (i : Int) (s : String) (hs : isWhitespaceString s = false) :
    n.addImplements texts =
      n.insertImplements (n.getImplements.length : Int) texts ∧
    (n.insertImplements i (.str s)).map InsertOutcome.edit =
      (n.insertImplements i (.arr [s])).map InsertOutcome.edit := by
  refine ⟨rfl, ?_⟩
  simp only [ClassNode.insertImplements, hs, Bool.false_eq_true, if_false,
    List.length_cons, List.length_nil, Nat.zero_add, OfNat.ofNat_ne_zero,
    if_false]
  exact insertImplementsCore_edit_indep n i [s] 0 1

theorem addImplements_collapses_to_insert_witness :
    (demoOneImpl.addImplements (.str ("Z")) =
      demoOneImpl.insertImplements (demoOneImpl.getImplements.length : Int)
        (.str ("Z"))) ∧
    (demoOneImpl.insertImplements 0 (.str ("Z"))).map InsertOutcome.edit =
      (demoOneImpl.insertImplements 0 (.arr ["Z"])).map InsertOutcome.edit :=
  ⟨(addImplements_collapses_to_insert demoOneImpl (.str ("Z")) 0 ("Z")
      (by decide)).1,
   (addImplements_collapses_to_insert demoOneImpl (.str ("Z")) 0 ("Z")
      (by decide)).2⟩

theorem implementsOf_cons_pos (c : HeritageClause) (rest : List HeritageClause)
    (hc : c.isImplements = true) : implementsOf (c :: rest) = c.typeTexts := by
  simp [implementsOf, getImplementsHeritageClause, List.find?_cons_of_pos, hc]

theorem implementsOf_cons_neg (c : HeritageClause) (rest : List HeritageClause)
    (hc : c.isImplements = false) :
    implementsOf (c :: rest) = implementsOf rest := by
  simp [implementsOf, getImplementsHeritageClause, List.find?_cons_of_neg, hc]

theorem implementsOf_splice (cs : List HeritageClause) (idx : Nat)
    (ts : List String) (h : implementsOf cs ≠ []) :
    implementsOf (spliceIntoImplementsClause cs idx ts) =
      (implementsOf cs).take idx ++ ts ++ (implementsOf cs).drop idx := by
  induction cs with
  | nil => simp [implementsOf, getImplementsHeritageClause] at h
  | cons c rest ih =>
    cases hc : c.isImplements with
    | true =>
      rw [spliceIntoImplementsClause, if_pos hc, implementsOf_cons_pos _ _ hc]
      exact implementsOf_cons_pos _ _ hc
    | false =>
      rw [implementsOf_cons_neg _ _ hc] at h
      rw [spliceIntoImplementsClause, if_neg (by simp [hc]),
        implementsOf_cons_neg _ _ hc, implementsOf_cons_neg _ _ hc, ih h]

theorem length_take_of_le {α : Type} (L : List α) (idx : Nat)
    (h : idx ≤ L.length) : (L.take idx).length = idx := by
  simp [List.length_take, Nat.min_eq_left h]

theorem slice_of_splice (L ts : List String) (idx : Nat) (h : idx ≤ L.length) :
    ((L.take idx ++ ts ++ L.drop idx).drop idx).take ts.length = ts := by
  rw [List.append_assoc, List.drop_left' (length_take_of_le L idx h),
    List.take_left]

theorem get_of_splice (L : List String) (s : String) (idx : Nat)
    (h : idx ≤ L.length) :
    (L.take idx ++ [s] ++ L.drop idx).get? idx = some s := by
  have h1 : (L.take idx).length = idx := length_take_of_le L idx h
  rw [List.append_assoc, List.get?_append_right (le_of_eq h1), h1]
  simp

theorem insertImplementsCore_existing (n : ClassNode) (idx : Nat)
    (ts : List String) (len : Nat) (himpl : implementsOf n.clauses ≠ [])
    (hidx : idx ≤ (implementsOf n.clauses).length) :
    insertImplementsCore n (idx : Int) ts len =
      .ok ⟨(insertIntoCommaSeparatedNodes n idx ts).fullText,
        spliceIntoImplementsClause n.clauses idx ts,
        .commaSeparated idx ts,
        getNodeOrNodesToReturn
          (implementsOf (spliceIntoImplementsClause n.clauses idx ts)) idx len⟩ := by
  have hv : verifyAndGetIndex (idx : Int) (implementsOf n.clauses).length =
      .ok idx := by
    rw [verifyAndGetIndex,
      if_pos ⟨Int.natCast_nonneg idx, by exact_mod_cast hidx⟩]
    simp
  have hpos : 0 < (implementsOf n.clauses).length := List.length_pos.mpr himpl
  simp only [insertImplementsCore, hv, if_pos hpos,
    insertIntoCommaSeparatedNodes, ClassNode.getImplements]

/-- Claim C1: when at least one implements type exists and the index is in
the range index validation accepts, `insertImplements` splices the new texts
into the existing comma-separated implements list at that index and returns
exactly the implements nodes at positions index through index + length - 1
of the updated list: the node array for the array overload and the single
node at the index for the string overload. -/
theorem insertImplements_splices_existing (n : ClassNode) (idx : Nat)
    (ts : List String) (s : String) (himpl : n.getImplements ≠ [])
    (hidx : idx ≤ n.getImplements.length) (hts : ts ≠ [])
    (hs : isWhitespaceString s = false) :
    (∃ out, n.insertImplements (idx : Int) (.arr ts) = .ok out ∧
      implementsOf out.newClauses =
        n.getImplements.take idx ++ ts ++ n.getImplements.drop idx ∧
      out.newFullText = (insertIntoCommaSeparatedNodes n idx ts).fullText ∧
      out.returned =
        .many (((implementsOf out.newClauses).drop idx).take ts.length) ∧
      out.returned = .many ts) ∧
    (∃ out, n.insertImplements (idx : Int) (.str s) = .ok out ∧
      implementsOf out.newClauses =
        n.getImplements.take idx ++ [s] ++ n.getImplements.drop idx ∧
      out.returned = .one ((implementsOf out.newClauses).get? idx) ∧
      out.returned = .one (some s)) := by
  have himpl' : implementsOf n.clauses ≠ [] := himpl
  have hidx' : idx ≤ (implementsOf n.clauses).length := hidx
  have hsplice := implementsOf_splice n.clauses idx ts himpl'
  have hsplice1 := implementsOf_splice n.clauses idx [s] himpl'
  have hpos : 0 < ts.length := List.length_pos.mpr hts
  constructor
  · have heq : n.insertImplements (idx : Int) (.arr ts) =
        .ok ⟨(insertIntoCommaSeparatedNodes n idx ts).fullText,
          spliceIntoImplementsClause n.clauses idx ts,
          .commaSeparated idx ts,
          getNodeOrNodesToReturn
            (implementsOf (spliceIntoImplementsClause n.clauses idx ts))
            idx ts.length⟩ := by
      simp only [ClassNode.insertImplements,
        if_neg (fun hh => hts (List.length_eq_zero.mp hh))]
      exact insertImplementsCore_existing n idx ts ts.length himpl' hidx'
    refine ⟨_, heq, hsplice, rfl, ?_, ?_⟩
    · simp [getNodeOrNodesToReturn, hpos]
    · rw [show getNodeOrNodesToReturn
          (implementsOf (spliceIntoImplementsClause n.clauses idx ts))
          idx ts.length =
          .many (((implementsOf
            (spliceIntoImplementsClause n.clauses idx ts)).drop idx).take
              ts.length) from by simp [getNodeOrNodesToReturn, hpos],
        hsplice, slice_of_splice _ _ _ hidx']
  · have heq : n.insertImplements (idx : Int) (.str s) =
        .ok ⟨(insertIntoCommaSeparatedNodes n idx [s]).fullText,
          spliceIntoImplementsClause n.clauses idx [s],
          .commaSeparated idx [s],
          getNodeOrNodesToReturn
            (implementsOf (spliceIntoImplementsClause n.clauses idx [s]))
            idx 0⟩ := by
      simp only [ClassNode.insertImplements, hs, Bool.false_eq_true, if_false]
      exact insertImplementsCore_existing n idx [s] 0 himpl' hidx'
    refine ⟨_, heq, hsplice1, ?_, ?_⟩
    · simp [getNodeOrNodesToReturn]
    · rw [show getNodeOrNodesToReturn
          (implementsOf (spliceIntoImplementsClause n.clauses idx [s])) idx 0 =
          .one ((implementsOf
            (spliceIntoImplementsClause n.clauses idx [s])).get? idx) from by
            simp [getNodeOrNodesToReturn],
        hsplice1, get_of_splice _ _ _ hidx']

theorem insertImplements_splices_existing_witness :
    (∃ out, demoOneImpl.insertImplements ((1 : Nat) : Int)
        (.arr ["X", "Y"]) = .ok out ∧
      implementsOf out.newClauses =
        demoOneImpl.getImplements.take 1 ++ ["X", "Y"] ++
          demoOneImpl.getImplements.drop 1 ∧
      out.newFullText =
        (insertIntoCommaSeparatedNodes demoOneImpl 1 ["X", "Y"]).fullText ∧
      out.returned =
        .many (((implementsOf out.newClauses).drop 1).take
          (["X", "Y"] : List String).length) ∧
      out.returned = .many ["X", "Y"]) ∧
    (∃ out, demoOneImpl.insertImplements ((1 : Nat) : Int) (.str ("X")) =
        .ok out ∧
      implementsOf out.newClauses =
        demoOneImpl.getImplements.take 1 ++ ["X"] ++
          demoOneImpl.getImplements.drop 1 ∧
      out.returned = .one ((implementsOf out.newClauses).get? 1) ∧
      out.returned = .one (some ("X"))) :=
  insertImplements_splices_existing demoOneImpl 1 ["X", "Y"] ("X")
    (by decide) (by decide) (by decide) (by decide)

theorem insertImplementsCore_no_existing (n : ClassNode) (ts : List String)
    (len : Nat) (himpl : implementsOf n.clauses = []) :
    insertImplementsCore n 0 ts len =
      .ok ⟨stringInsertAt n.fullText n.openBracePos
          (if n.isLastSpaceBeforeBrace
            then "implements " ++ String.intercalate (", ") ts ++ " "
            else " " ++ ("implements " ++ String.intercalate (", ") ts ++ " ")),
        n.clauses ++ [⟨true, ts⟩],
        .creatableSyntaxList n.openBracePos
          (if n.isLastSpaceBeforeBrace
            then "implements " ++ String.intercalate (", ") ts ++ " "
            else " " ++ ("implements " ++ String.intercalate (", ") ts ++ " "))
          (n.clauses.length != 0) 1 1,
        getNodeOrNodesToReturn (implementsOf (n.clauses ++ [⟨true, ts⟩])) 0 len⟩ := by
  have hv : verifyAndGetIndex 0 0 = .ok 0 := by decide
  simp only [insertImplementsCore, himpl, List.length_nil, hv,
    lt_irrefl, if_false, insertIntoCreatableSyntaxList]

/-- Claim C2: when no implements types exist, `insertImplements` inserts the
text `implements` followed by the texts joined by `, ` and a trailing space,
immediately before the open brace token, prefixed by one extra leading space
exactly when the character before the open brace is not whitespace; the
syntax-list argument of the manipulation call is absent (a new syntax list
is created) exactly when no heritage clause exists, otherwise the existing
heritage-clause syntax list is used, with child index 1. -/
theorem insertImplements_creates_heritage_clause (n : ClassNode) (i : Int)
    (ts : List String) (himpl : n.getImplements = []) (hts : ts ≠ [])
    (hi : 0 ≤ i ∧ i ≤ 0) :
    ∃ out txt, n.insertImplements i (.arr ts) = .ok out ∧
      txt = (if n.isLastSpaceBeforeBrace
        then "implements " ++ String.intercalate (", ") ts ++ " "
        else " " ++ ("implements " ++ String.intercalate (", ") ts ++ " ")) ∧
      out.call = .creatableSyntaxList n.openBracePos txt
        (n.clauses.length != 0) 1 1 ∧
      out.newFullText = stringInsertAt n.fullText n.openBracePos txt ∧
      out.newClauses = n.clauses ++ [⟨true, ts⟩] := by
  have hi0 : i = 0 := le_antisymm hi.2 hi.1
  subst hi0
  have himpl' : implementsOf n.clauses = [] := himpl
  have heq2 := (show n.insertImplements 0 (.arr ts) =
      insertImplementsCore n 0 ts ts.length by
    simp only [ClassNode.insertImplements,
      if_neg (fun hh => hts (List.length_eq_zero.mp hh))]).trans
    (insertImplementsCore_no_existing n ts ts.length himpl')
  exact ⟨_, _, heq2, rfl, rfl, rfl, rfl⟩

theorem insertImplements_creates_heritage_clause_witness :
    ∃ out txt, demoPlain.insertImplements 0 (.arr ["X", "Y"]) = .ok out ∧
      txt = (if demoPlain.isLastSpaceBeforeBrace
        then "implements " ++ String.intercalate (", ") ["X", "Y"] ++ " "
        else " " ++
          ("implements " ++ String.intercalate (", ") ["X", "Y"] ++ " ")) ∧
      out.call = .creatableSyntaxList demoPlain.openBracePos txt
        (demoPlain.clauses.length != 0) 1 1 ∧
      out.newFullText =
        stringInsertAt demoPlain.fullText demoPlain.openBracePos txt ∧
      out.newClauses = demoPlain.clauses ++ [⟨true, ["X", "Y"]⟩] :=
  insertImplements_creates_heritage_clause demoPlain 0 ["X", "Y"]
    (by decide) (by decide) (by decide)

theorem removeImplements_ok_node (n : ClassNode) (k : Nat)
    (h0 : n.getImplements ≠ []) :
    ∃ out, n.removeImplements (.node k) = .ok out := by
  have hlen : ¬n.getImplements.length = 0 :=
    fun hh => h0 (List.length_eq_zero.mp hh)
  simp only [ClassNode.removeImplements, if_neg hlen]
  split <;> (try split) <;> exact ⟨_, rfl⟩

theorem removeImplements_ok_index (n : ClassNode) (i : Int)
    (h0 : n.getImplements ≠ [])
    (hi : 0 ≤ i ∧ i ≤ ((n.getImplements.length - 1 : Nat) : Int)) :
    ∃ out, n.removeImplements (.index i) = .ok out := by
  have hlen : ¬n.getImplements.length = 0 :=
    fun hh => h0 (List.length_eq_zero.mp hh)
  have hv : verifyAndGetIndex i (n.getImplements.length - 1) = .ok i.toNat := by
    rw [verifyAndGetIndex, if_pos hi]
  simp only [ClassNode.removeImplements, if_neg hlen, hv]
  split <;> (try split) <;> exact ⟨_, rfl⟩

theorem removeImplements_index_out_of_range (n : ClassNode) (i : Int)
    (h0 : n.getImplements ≠ [])
    (hi : ¬(0 ≤ i ∧ i ≤ ((n.getImplements.length - 1 : Nat) : Int))) :
    n.removeImplements (.index i) = .error .indexOutOfRange := by
  have hlen : ¬n.getImplements.length = 0 :=
    fun hh => h0 (List.length_eq_zero.mp hh)
  have hv : verifyAndGetIndex i (n.getImplements.length - 1) =
      .error .indexOutOfRange := by
    rw [verifyAndGetIndex, if_neg hi]
  simp only [ClassNode.removeImplements, if_neg hlen, hv]

/-- Claim C4: `insertImplements` validates the given index against the
current number of implements types, accepting 0 through count inclusive,
while the numeric overload of `removeImplements` validates it against
count - 1, accepting 0 through count - 1; an index outside the accepted
range raises an error, and since validation happens before any manipulation
call the error outcome carries no edit, leaving the source text unchanged. -/
theorem index_validation_ranges (n : ClassNode) (i : Int) (ts : List String)
    (hts : ts ≠ []) :
    ((0 ≤ i ∧ i ≤ (n.getImplements.length : Int)) →
      ∃ out, n.insertImplements i (.arr ts) = .ok out) ∧
    (¬(0 ≤ i ∧ i ≤ (n.getImplements.length : Int)) →
      n.insertImplements i (.arr ts) = .error .indexOutOfRange) ∧
    (n.getImplements ≠ [] →
      (((0 ≤ i ∧ i ≤ ((n.getImplements.length - 1 : Nat) : Int)) →
        ∃ out, n.removeImplements (.index i) = .ok out) ∧
      (¬(0 ≤ i ∧ i ≤ ((n.getImplements.length - 1 : Nat) : Int)) →
        n.removeImplements (.index i) = .error .indexOutOfRange))) := by
  refine ⟨fun hi => ?_, fun hi => ?_,
    fun h0 => ⟨removeImplements_ok_index n i h0,
      removeImplements_index_out_of_range n i h0⟩⟩
  · obtain ⟨out, ho⟩ := insertImplementsCore_in_range n i ts ts.length hi
    refine ⟨out, ?_⟩
    simp only [ClassNode.insertImplements,
      if_neg (fun hh => hts (List.length_eq_zero.mp hh))]
    exact ho
  · simp only [ClassNode.insertImplements,
      if_neg (fun hh => hts (List.length_eq_zero.mp hh))]
    exact insertImplementsCore_out_of_range n i ts ts.length hi

theorem index_validation_ranges_witness :
    (∃ out, demoOneImpl.insertImplements 1 (.arr ["X"]) = .ok out) ∧
    demoOneImpl.insertImplements 2 (.arr ["X"]) = .error .indexOutOfRange ∧
    (∃ out, demoOneImpl.removeImplements (.index 0) = .ok out) ∧
    demoOneImpl.removeImplements (.index 1) = .error .indexOutOfRange :=
  ⟨(index_validation_ranges demoOneImpl 1 ["X"] (by decide)).1 (by decide),
   (index_validation_ranges demoOneImpl 2 ["X"] (by decide)).2.1 (by decide),
   ((index_validation_ranges demoOneImpl 0 ["X"] (by decide)).2.2
     (by decide)).1 (by decide),
   ((index_validation_ranges demoOneImpl 1 ["X"] (by decide)).2.2
     (by decide)).2 (by decide)⟩

/-- Claim C5 counterexample: `demoOneImpl` has one implements type, yet
`removeImplements 1` throws an out-of-range error rather than succeeding,
so "when at least one implements type exists it succeeds" is false as
stated (the index overload can still be rejected by index validation). -/
theorem removeImplements_nonempty_can_still_throw :
    demoOneImpl.getImplements.length = 1 ∧
    demoOneImpl.removeImplements (.index 1) = .error .indexOutOfRange := by
  decide

/-- Claim C5 (amended): when `getImplements()` is empty, `removeImplements`
(either overload) throws an `InvalidOperationError` with the message
"Cannot remove an implements when none exist." and, the throw happening
before any manipulation call, the source text is unchanged; when at least
one implements type exists, the call succeeds for an existing implements
node and for a numeric index the validation accepts. -/
theorem removeImplements_empty_vs_nonempty (n : ClassNode) (arg : RemoveArg)
    (i : Int) (k : Nat) :
    (n.getImplements = [] →
      n.removeImplements arg =
        .error (.invalidOperation
          ("Cannot remove an implements when none exist."))) ∧
    (n.getImplements ≠ [] →
      (((0 ≤ i ∧ i ≤ ((n.getImplements.length - 1 : Nat) : Int)) →
        ∃ out, n.removeImplements (.index i) = .ok out) ∧
      ∃ out, n.removeImplements (.node k) = .ok out)) := by
  refine ⟨fun h => ?_, fun h0 =>
    ⟨removeImplements_ok_index n i h0, removeImplements_ok_node n k h0⟩⟩
  have hlen : n.getImplements.length = 0 := by simp [h]
  simp only [ClassNode.removeImplements, if_pos hlen]

theorem removeImplements_empty_vs_nonempty_witness :
    (demoPlain.removeImplements (.index 0) =
      .error (.invalidOperation
        ("Cannot remove an implements when none exist."))) ∧
    (∃ out, demoOneImpl.removeImplements (.index 0) = .ok out) ∧
    (∃ out, demoOneImpl.removeImplements (.node 0) = .ok out) :=
  ⟨(removeImplements_empty_vs_nonempty demoPlain (.index 0) 0 0).1 (by decide),
   ((removeImplements_empty_vs_nonempty demoOneImpl (.index 0) 0 0).2
     (by decide)).1 (by decide),
   ((removeImplements_empty_vs_nonempty demoOneImpl (.index 0) 0 0).2
     (by decide)).2⟩

/-- A node with an extends clause and a one-element implements clause,
reading `class C extends B implements A \x7b \x7d`. -/
def demoExtImpl : ClassNode :=
  ⟨"class C ", [⟨false, ["B"]⟩, ⟨true, ["A"]⟩], " ", " \x7d"⟩

/-- Claim C6: removing an implements type handles trivia by cases: when the
only implements type sits in the only heritage clause, the whole heritage
syntax list is removed with its preceding spaces; when one implements type
exists but another heritage clause remains, only the implements heritage
clause is removed with its preceding spaces; when several implements types
exist, only the targeted comma-separated child is removed, with preceding
spaces removed exactly when the target is not the first element. -/
theorem removeImplements_trivia_cases (n : ClassNode) (k : Nat)
    (hk : k < n.getImplements.length) :
    (n.getImplements.length = 1 → n.clauses.length = 1 →
      n.removeImplements (.node k) =
        .ok ⟨removeHeritageSyntaxList n, [], .childrenSyntaxList true⟩) ∧
    (n.getImplements.length = 1 → n.clauses.length ≠ 1 →
      n.removeImplements (.node k) =
        .ok ⟨(removeImplementsClauseOnly n).1, (removeImplementsClauseOnly n).2,
          .childrenImplementsClause true⟩) ∧
    (1 < n.getImplements.length →
      n.removeImplements (.node k) =
        .ok ⟨(removeCommaSeparatedChild n k).1, (removeCommaSeparatedChild n k).2,
          .commaSeparatedChild k (k != 0)⟩) := by
  have hlen : ¬n.getImplements.length = 0 := by omega
  refine ⟨fun h1 hc1 => ?_, fun h1 hc1 => ?_, fun h2 => ?_⟩
  · simp only [ClassNode.removeImplements, if_neg hlen, if_pos h1, if_pos hc1]
  · simp only [ClassNode.removeImplements, if_neg hlen, if_pos h1, if_neg hc1,
      removeImplementsClauseOnly]
  · have h1' : ¬n.getImplements.length = 1 := by omega
    simp only [ClassNode.removeImplements, if_neg hlen, if_neg h1',
      removeCommaSeparatedChild]

theorem removeImplements_trivia_cases_witness :
    demoOneImpl.removeImplements (.node 0) =
      .ok ⟨removeHeritageSyntaxList demoOneImpl, [], .childrenSyntaxList true⟩ ∧
    demoExtImpl.removeImplements (.node 0) =
      .ok ⟨(removeImplementsClauseOnly demoExtImpl).1,
        (removeImplementsClauseOnly demoExtImpl).2,
        .childrenImplementsClause true⟩ ∧
    demoTwoImpl.removeImplements (.node 1) =
      .ok ⟨(removeCommaSeparatedChild demoTwoImpl 1).1,
        (removeCommaSeparatedChild demoTwoImpl 1).2,
        .commaSeparatedChild 1 ((1 : Nat) != 0)⟩ :=
  ⟨(removeImplements_trivia_cases demoOneImpl 0 (by decide)).1
      (by decide) (by decide),
   (removeImplements_trivia_cases demoExtImpl 0 (by decide)).2.1
      (by decide) (by decide),
   (removeImplements_trivia_cases demoTwoImpl 1 (by decide)).2.2 (by decide)⟩

theorem printText_eq_branch_on_header (fac : StructurePrinterFactory)
    (isAmbient : Bool) (s : GetAccessorDeclarationStructure) (w0 : String) :
    printText fac isAmbient s w0 =
      (if isAmbient || s.isAbstract then write (printTextHeader fac s w0) (";")
       else inlineBlock (spaceIfLastNot (printTextHeader fac s w0))
        (fac.printBodyText isAmbient s)) := rfl

/-- Claim C7: `printText` writes the output pieces in exactly this fixed
order: the JSDoc docs, the decorators, the modifiers, the literal `get `
followed by the structure's name, the type parameters in brackets, an
opening parenthesis, the parameters, a closing parenthesis, the return
type, and finally the terminator or the body block; no piece is reordered
or omitted.  The collaborating printers are assumed to append their text
fragment to the writer, the contract the spec gives them. -/
theorem printText_fixed_order (fac : StructurePrinterFactory) (isAmbient : Bool)
    (s : GetAccessorDeclarationStructure)
    (w0 docsT decT modT tpT parT retT bodyT : String)
    (hDocs : ∀ w, fac.printDocs s w = w ++ docsT)
    (hDec : ∀ w, fac.printDecoratorTexts s w = w ++ decT)
    (hMod : ∀ w, fac.printModifierText s w = w ++ modT)
    (hTp : ∀ w, fac.printTypeParameterTextsWithBrackets s w = w ++ tpT)
    (hPar : ∀ w, fac.printParameterTexts s w = w ++ parT)
    (hRet : ∀ w, fac.printReturnTypedText s w = w ++ retT)
    (hBody : ∀ w, fac.printBodyText isAmbient s w = w ++ bodyT) :
    printTextHeader fac s w0 =
      w0 ++ docsT ++ decT ++ modT ++ ("get " ++ s.name) ++ tpT ++ "(" ++
        parT ++ ")" ++ retT ∧
    printText fac isAmbient s w0 =
      (if isAmbient || s.isAbstract then printTextHeader fac s w0 ++ ";"
       else spaceIfLastNot (printTextHeader fac s w0) ++ "\x7b" ++ bodyT ++
        "\x7d") := by
  constructor
  · simp only [printTextHeader, write, hDocs, hDec, hMod, hTp, hPar, hRet]
  · rw [printText_eq_branch_on_header]
    cases h : (isAmbient || s.isAbstract) with
    | true => rfl
    | false =>
      simp only [if_false, Bool.false_eq_true, inlineBlock, hBody,
        String.append_assoc]

/-- A concrete factory whose collaborators append one-letter fragments. -/
def demoFactory : StructurePrinterFactory where
  printDocs := fun _ w => w ++ "D"
  printDecoratorTexts := fun _ w => w ++ "E"
  printModifierText := fun _ w => w ++ "M"
  printTypeParameterTextsWithBrackets := fun _ w => w ++ "T"
  printParameterTexts := fun _ w => w ++ "P"
  printReturnTypedText := fun _ w => w ++ "R"
  printBodyText := fun _ _ w => w ++ "B"

theorem printText_fixed_order_witness :
    printTextHeader demoFactory ⟨"x", false⟩ ("") =
      ("") ++ "D" ++ "E" ++ "M" ++ ("get " ++ "x") ++ "T" ++ "(" ++ "P" ++
        ")" ++ "R" ∧
    printText demoFactory false ⟨"x", false⟩ ("") =
      (if (false || (false : Bool)) then
        printTextHeader demoFactory ⟨"x", false⟩ ("") ++ ";"
       else spaceIfLastNot (printTextHeader demoFactory ⟨"x", false⟩ ("")) ++
        "\x7b" ++ "B" ++ "\x7d") :=
  printText_fixed_order demoFactory false ⟨"x", false⟩
    ("") "D" "E" "M" "T" "P" "R" "B"
    (fun w1 => rfl) (fun w2 => rfl) (fun w3 => rfl) (fun w4 => rfl)
    (fun w5 => rfl) (fun w6 => rfl) (fun w7 => rfl)

/-- Claim C8: `printText` ends the declaration with a semicolon and writes
no body block exactly when the printer's `isAmbient` option or the
structure's `isAbstract` flag is set; otherwise it writes an inline block —
preceded by a space when the last written character is not one — containing
the printed body text. -/
theorem printText_terminator_vs_block (fac : StructurePrinterFactory)
    (isAmbient : Bool) (s : GetAccessorDeclarationStructure)
    (w0 bodyT : String)
    (hBody : ∀ w, fac.printBodyText isAmbient s w = w ++ bodyT) :
    ((isAmbient || s.isAbstract) = true →
      printText fac isAmbient s w0 = printTextHeader fac s w0 ++ ";") ∧
    ((isAmbient || s.isAbstract) = false →
      printText fac isAmbient s w0 =
        (if (printTextHeader fac s w0).endsWith (" ")
          then printTextHeader fac s w0
          else printTextHeader fac s w0 ++ " ") ++ "\x7b" ++ bodyT ++
          "\x7d") ∧
    ((printText fac isAmbient s w0).data.getLast? = some (';') ↔
      (isAmbient || s.isAbstract) = true) := by
  have hsem : ∀ t : String, (t ++ ";").data.getLast? = some (';') := by
    intro t
    show (t.data ++ [';']).getLast? = some ';'
    simp
  have hbrace : ∀ t : String, (t ++ "\x7d").data.getLast? = some ('\x7d') := by
    intro t
    show (t.data ++ ['\x7d']).getLast? = some '\x7d'
    simp
  refine ⟨fun h => ?_, fun h => ?_, ?_⟩
  · rw [printText_eq_branch_on_header, if_pos h]
    rfl
  · rw [printText_eq_branch_on_header, h]
    simp only [if_false, Bool.false_eq_true, inlineBlock, hBody,
      String.append_assoc, spaceIfLastNot]
  · by_cases h : (isAmbient || s.isAbstract) = true
    · rw [printText_eq_branch_on_header, if_pos h, h]
      exact iff_of_true (hsem _) rfl
    · have h' : (isAmbient || s.isAbstract) = false := by
        cases hb : (isAmbient || s.isAbstract)
        · rfl
        · exact absurd hb h
      rw [printText_eq_branch_on_header, if_neg h, h']
      simp only [inlineBlock, hBody]
      constructor
      · intro hc
        rw [hbrace] at hc
        exact absurd hc (by decide)
      · intro hc
        exact absurd hc (by decide)

theorem printText_terminator_vs_block_witness :
    ((false || ((⟨"x", false⟩ : GetAccessorDeclarationStructure).isAbstract))
        = true →
      printText demoFactory false ⟨"x", false⟩ ("") =
        printTextHeader demoFactory ⟨"x", false⟩ ("") ++ ";") ∧
    ((false || ((⟨"x", false⟩ : GetAccessorDeclarationStructure).isAbstract))
        = false →
      printText demoFactory false ⟨"x", false⟩ ("") =
        (if (printTextHeader demoFactory ⟨"x", false⟩ ("")).endsWith (" ")
          then printTextHeader demoFactory ⟨"x", false⟩ ("")
          else printTextHeader demoFactory ⟨"x", false⟩ ("") ++ " ") ++
          "\x7b" ++ "B" ++ "\x7d") ∧
    ((printText demoFactory false ⟨"x", false⟩ ("")).data.getLast? =
        some (';') ↔
      (false || ((⟨"x", false⟩ : GetAccessorDeclarationStructure).isAbstract))
        = true) :=
  printText_terminator_vs_block demoFactory false ⟨"x", false⟩ ("") "B"
    (fun _ => rfl)

end TsMorph
